import Mathlib

/-!
# Verification of the chibitv MMT/TLV ingest pipeline

A shallow embedding, in Lean 4, of the core state machines and pure
computations of the `chibitv` repository, together with theorems settling
the specification claims about them.

Modelling conventions:

* Machine integers (`u8`, `u16`, `u32`, `u64`, `usize`) are modelled as
  `Nat`; wherever the Rust code truncates (`as u8`, wrapping arithmetic)
  the model applies an explicit `% 2^w`.
* Byte buffers (`Vec<u8>`, `Bytes`, `[u8; N]`) are `List Nat`.
* A Rust `panic!` / failed `assert!` is modelled as `Option.none` in the
  function's result; a recoverable `Result::Err` is `Except.error`.
* `f64` timestamp arithmetic is modelled over exact rationals `ℚ`; none of
  the verified claims depends on floating-point rounding.
* External cryptographic primitives (SHA-256 from the `sha2` crate,
  AES-128-CTR from `openssl`) are taken as opaque function parameters;
  the code under verification only composes them.
-/

namespace Chibitv

/-! ## Defragmenter (`crates/chibitv_b60/src/deflag.rs`) -/

/-- `deflag::State`. -/
inductive DefragState where
  | Init
  | NotStarted
  | InFragment
  | Skip
deriving DecidableEq, Repr

/-- `mmtp::FragmentationIndicator`. -/
inductive FragmentationIndicator where
  | NotFragmented
  | FragmentHead
  | FragmentBody
  | FragmentTail
deriving DecidableEq, Repr

/-- `deflag::Defragmenter`: state machine reassembling head/body/tail
fragments. `buf` is the accumulation buffer. -/
structure Defragmenter where
  state : DefragState
  last_sequence_number : Nat
  buf : List Nat
deriving DecidableEq, Repr

/-- `Defragmenter::default()`. -/
def Defragmenter.initial : Defragmenter :=
  { state := .Init, last_sequence_number := 0, buf := [] }

/-- `Defragmenter::sync`, translated clause for clause.  The packet
sequence number is a `u32` in Rust; the claims under verification do not
exercise the wrap-around at `2^32`, so it is modelled as `Nat`. -/
def Defragmenter.sync (d : Defragmenter) (sequence_number : Nat) : Defragmenter :=
  match d.state with
  | .Init =>
      { d with state := .Skip, last_sequence_number := sequence_number }
  | _ =>
      if sequence_number = d.last_sequence_number + 1 then
        { d with last_sequence_number := sequence_number }
      else if sequence_number ≠ d.last_sequence_number then
        -- warn + drop the buffered octets, enter Skip
        { d with buf := [], state := .Skip, last_sequence_number := sequence_number }
      else
        d

/-- `Defragmenter::push`.  Returns `none` when a Rust `assert!` would
panic; otherwise `some (emitted?, new state)`. -/
def Defragmenter.push (d : Defragmenter) (fragmentation_indicator : FragmentationIndicator)
    (buf : List Nat) : Option (Option (List Nat) × Defragmenter) :=
  match fragmentation_indicator with
  | .NotFragmented =>
      -- assert_ne!(self.state, State::InFragment)
      if d.state = .InFragment then none
      else some (some buf, { d with state := .NotStarted })
  | .FragmentHead =>
      -- assert_ne!(self.state, State::InFragment)
      if d.state = .InFragment then none
      else some (none, { d with state := .InFragment, buf := d.buf ++ buf })
  | .FragmentBody =>
      if d.state = .Skip then some (none, d)
      else if d.state = .InFragment then
        some (none, { d with buf := d.buf ++ buf })
      else none -- assert_eq!(self.state, State::InFragment)
  | .FragmentTail =>
      if d.state = .Skip then some (none, d)
      else if d.state = .InFragment then
        some (some (d.buf ++ buf), { d with state := .NotStarted, buf := [] })
      else none -- assert_eq!(self.state, State::InFragment)

/-- Defragmenter states reachable from the fresh state by any interleaving
of `sync` and non-panicking `push` calls. -/
inductive Defragmenter.Reachable : Defragmenter → Prop where
  | initial : Defragmenter.Reachable Defragmenter.initial
  | sync {d : Defragmenter} {s : Nat} :
      Defragmenter.Reachable d → Defragmenter.Reachable (d.sync s)
  | push {d d' : Defragmenter} {fi : FragmentationIndicator}
      {b : List Nat} {out : Option (List Nat)} :
      Defragmenter.Reachable d → d.push fi b = some (out, d') →
      Defragmenter.Reachable d'

/-- `sync` preserves the buffer-emptiness invariant. -/
theorem Defragmenter.sync_bufInv {d : Defragmenter} {s : Nat}
    (h : d.state ≠ .InFragment → d.buf = []) :
    (d.sync s).state ≠ .InFragment → (d.sync s).buf = [] := by
  unfold Defragmenter.sync
  cases hst : d.state with
  | Init => intro _; exact h (by simp [hst])
  | NotStarted =>
      split_ifs with h1 h2
      · intro _; exact h (by simp [hst])
      · intro _; rfl
      · intro _; exact h (by simp [hst])
  | InFragment =>
      split_ifs with h1 h2
      · intro hx; simp [hst] at hx
      · intro _; rfl
      · intro hx; simp [hst] at hx
  | Skip =>
      split_ifs with h1 h2
      · intro _; exact h (by simp [hst])
      · intro _; rfl
      · intro _; exact h (by simp [hst])

/-- The buffer is empty outside of `InFragment` on every reachable state
(spec §3: "The defragmenter's buffer is empty whenever state is `Init`,
`NotStarted`, or `Skip`"). -/
theorem Defragmenter.reachable_buf_empty {d : Defragmenter}
    (h : Defragmenter.Reachable d) : d.state ≠ .InFragment → d.buf = [] := by
  induction h with
  | initial => intro _; rfl
  | @sync d s hd ih => exact Defragmenter.sync_bufInv ih
  | @push d d' fi b out hd hp ih =>
      intro hs
      unfold Defragmenter.push at hp
      cases fi with
      | NotFragmented =>
          by_cases hin : d.state = .InFragment
          · simp [hin] at hp
          · simp only [hin, if_false, Option.some.injEq, Prod.mk.injEq] at hp
            obtain ⟨-, rfl⟩ := hp
            exact ih hin
      | FragmentHead =>
          by_cases hin : d.state = .InFragment
          · simp [hin] at hp
          · simp only [hin, if_false, Option.some.injEq, Prod.mk.injEq] at hp
            obtain ⟨-, rfl⟩ := hp
            simp at hs
      | FragmentBody =>
          by_cases hsk : d.state = .Skip
          · simp only [hsk, if_true, Option.some.injEq, Prod.mk.injEq] at hp
            obtain ⟨-, rfl⟩ := hp
            exact ih (by simp [hsk])
          · by_cases hin : d.state = .InFragment
            · simp only [hsk, if_false, hin, if_true, Option.some.injEq,
                Prod.mk.injEq] at hp
              obtain ⟨-, rfl⟩ := hp
              simp at hs
            · simp [hsk, hin] at hp
      | FragmentTail =>
          by_cases hsk : d.state = .Skip
          · simp only [hsk, if_true, Option.some.injEq, Prod.mk.injEq] at hp
            obtain ⟨-, rfl⟩ := hp
            exact ih (by simp [hsk])
          · by_cases hin : d.state = .InFragment
            · simp only [hsk, if_false, hin, if_true, Option.some.injEq,
                Prod.mk.injEq] at hp
              obtain ⟨-, rfl⟩ := hp
              rfl
            · simp [hsk, hin] at hp

/-- **C3.** Starting from a fresh defragmenter, the sequence
`Head(A)`, `Body(B)`, `Tail(C)` — with `sync` called before each push on
consecutive packet sequence numbers — returns no buffer on the `Head` and
`Body` pushes and exactly the assembled buffer `A ++ B ++ C` on the `Tail`
push; and after any `Tail` push that returns (does not panic) on a
reachable defragmenter, the internal buffer is empty. -/
theorem defragmenter_head_body_tail_assembles :
    (∀ (s : Nat) (A B C : List Nat),
      (Defragmenter.initial.sync s).push .FragmentHead A
          = some (none, ⟨.InFragment, s, A⟩) ∧
      ((⟨.InFragment, s, A⟩ : Defragmenter).sync (s + 1)).push .FragmentBody B
          = some (none, ⟨.InFragment, s + 1, A ++ B⟩) ∧
      ((⟨.InFragment, s + 1, A ++ B⟩ : Defragmenter).sync (s + 2)).push .FragmentTail C
          = some (some (A ++ B ++ C), ⟨.NotStarted, s + 2, []⟩)) ∧
    (∀ (d d' : Defragmenter) (b : List Nat) (out : Option (List Nat)),
      Defragmenter.Reachable d → d.push .FragmentTail b = some (out, d') →
      d'.buf = []) := by
  constructor
  · intro s A B C
    refine ⟨rfl, ?_, ?_⟩
    · simp [Defragmenter.sync, Defragmenter.push]
    · simp [Defragmenter.sync, Defragmenter.push]
  · intro d d' b out hreach hp
    unfold Defragmenter.push at hp
    by_cases hsk : d.state = .Skip
    · simp only [hsk, if_true, Option.some.injEq, Prod.mk.injEq] at hp
      obtain ⟨-, rfl⟩ := hp
      exact Defragmenter.reachable_buf_empty hreach (by simp [hsk])
    · by_cases hin : d.state = .InFragment
      · simp only [hsk, if_false, hin, if_true, Option.some.injEq, Prod.mk.injEq] at hp
        obtain ⟨-, rfl⟩ := hp
        rfl
      · simp [hsk, hin] at hp

/-- Witness for C3: the scenario at `s = 5`, `A = [1]`, `B = [2]`,
`C = [3]`, and the `Tail` clause applied to the concrete reachable state
reached after `sync 5; push Head [1]`. -/
theorem defragmenter_head_body_tail_assembles_witness :
    (Defragmenter.initial.sync 5).push .FragmentHead [1]
        = some (none, ⟨.InFragment, 5, [1]⟩) ∧
    (⟨.InFragment, 5, [1]⟩ : Defragmenter).push .FragmentTail [3]
        = some (some [1, 3], ⟨.NotStarted, 5, []⟩) ∧
    (⟨.NotStarted, 5, []⟩ : Defragmenter).buf = [] := by
  refine ⟨(defragmenter_head_body_tail_assembles.1 5 [1] [2] [3]).1, by decide, ?_⟩
  exact defragmenter_head_body_tail_assembles.2
    ⟨.InFragment, 5, [1]⟩ ⟨.NotStarted, 5, []⟩ [3] (some [1, 3])
    (.push (.sync .initial)
      ((defragmenter_head_body_tail_assembles.1 5 [1] [2] [3]).1))
    (by decide)

/-! ## TLV reader (`crates/chibitv_b60/src/tlv.rs`) -/

/-- `tlv::TlvPacketType`. -/
inductive TlvPacketType where
  | IPv4
  | IPv6
  | CompressedIP
  | TransmissionControlSignal
  | Null
deriving DecidableEq, Repr

/-- `TlvPacketType::from_repr` (`strum::FromRepr` over the wire tags). -/
def TlvPacketType.fromRepr (n : Nat) : Option TlvPacketType :=
  if n = 0x01 then some .IPv4
  else if n = 0x02 then some .IPv6
  else if n = 0x03 then some .CompressedIP
  else if n = 0xFE then some .TransmissionControlSignal
  else if n = 0xFF then some .Null
  else none

/-- `tlv::TlvPacket`. -/
structure TlvPacket where
  packet_type : TlvPacketType
  data : List Nat
deriving DecidableEq, Repr

/-- `TlvPacket::try_read` over a byte stream modelled as a list. `none` is
a panic (the `assert_eq!(head, 0x7F)`); `Except.error ()` is an I/O error
(unexpected EOF).  On success it returns the parsed frame (or `None` for
an unrecognized packet type) together with the unconsumed rest of the
stream. -/
def TlvPacket.tryRead (input : List Nat) :
    Option (Except Unit (Option TlvPacket × List Nat)) :=
  match input with
  | [] => some (.error ()) -- read_u8 at EOF → Err(UnexpectedEof)
  | head :: rest =>
    if head ≠ 0x7F then none -- assert_eq!(head, 0x7F) panics
    else match rest with
      | [] => some (.error ())
      | pt :: rest2 =>
        match TlvPacketType.fromRepr pt with
        | none =>
            -- `return Ok(None)`: nothing after the packet-type octet is read
            some (.ok (none, rest2))
        | some packet_type =>
            match rest2 with
            | a :: b :: rest3 =>
                let data_length := a * 256 + b
                if rest3.length < data_length then some (.error ()) -- read_exact EOF
                else some (.ok (some ⟨packet_type, rest3.take data_length⟩,
                                rest3.drop data_length))
            | _ => some (.error ()) -- read_u16 at EOF

/-- **C4 counterexample.** The claim says a frame whose `packet_type`
octet is unrecognized still consumes the `length` field and exactly
`length` payload bytes.  On the stream
`7F 00 00 02 AA BB` (unrecognized type `0x00`, would-be length `2`) the
reader returns `Ok(None)` leaving all four post-type octets — including
the two would-be length octets and the two payload octets — unconsumed,
whereas the claim requires the remaining stream to be empty. -/
theorem tlv_unrecognized_consumes_payload_ce :
    TlvPacket.tryRead [0x7F, 0x00, 0x00, 0x02, 0xAA, 0xBB]
        = some (.ok (none, [0x00, 0x02, 0xAA, 0xBB])) ∧
    ([0x00, 0x02, 0xAA, 0xBB] : List Nat).length ≠ 0 := by
  constructor
  · rfl
  · decide

/-- **C4 (amended).** For every TLV frame read with a *recognized*
`packet_type`, exactly `length` payload bytes are consumed after the
4-octet header (sync, type, 16-bit length), and the frame's data is
exactly those `length` bytes.  For an unrecognized `packet_type` the
reader emits `None` after consuming only the sync and type octets,
leaving the length field and payload unconsumed. -/
theorem tlv_read_consumes_exactly_length :
    (∀ (input rem : List Nat) (pkt : TlvPacket),
        TlvPacket.tryRead input = some (.ok (some pkt, rem)) →
        ∃ (t a b : Nat) (body : List Nat),
          input = 0x7F :: t :: a :: b :: body ∧
          pkt.data = body.take (a * 256 + b) ∧
          rem = body.drop (a * 256 + b) ∧
          pkt.data.length = a * 256 + b ∧
          body.length = (a * 256 + b) + rem.length) ∧
    (∀ (input rem : List Nat),
        TlvPacket.tryRead input = some (.ok (none, rem)) →
        ∃ (t : Nat), input = 0x7F :: t :: rem ∧ TlvPacketType.fromRepr t = none) := by
  constructor
  · intro input rem pkt h
    match input with
    | [] => simp [TlvPacket.tryRead] at h
    | head :: rest =>
        unfold TlvPacket.tryRead at h
        by_cases hh : head = 0x7F
        · subst hh
          simp only [ne_eq, not_true_eq_false, if_false] at h
          match rest with
          | [] => simp at h
          | pt :: rest2 =>
              cases hft : TlvPacketType.fromRepr pt with
              | none => simp [hft] at h
              | some packet_type =>
                  simp only [hft] at h
                  match rest2 with
                  | [] => simp at h
                  | [a] => simp at h
                  | a :: b :: rest3 =>
                      by_cases hlen : rest3.length < a * 256 + b
                      · simp [hlen] at h
                      · simp only [hlen, if_false, Option.some.injEq,
                          Except.ok.injEq, Prod.mk.injEq] at h
                        obtain ⟨hp, hrem⟩ := h
                        refine ⟨pt, a, b, rest3, rfl, ?_, hrem.symm, ?_, ?_⟩
                        · rw [← hp]
                        · rw [← hp]
                          simp
                          omega
                        · rw [hrem.symm]
                          simp
                          omega
        · simp [hh] at h
  · intro input rem h
    match input with
    | [] => simp [TlvPacket.tryRead] at h
    | head :: rest =>
        unfold TlvPacket.tryRead at h
        by_cases hh : head = 0x7F
        · subst hh
          simp only [ne_eq, not_true_eq_false, if_false] at h
          match rest with
          | [] => simp at h
          | pt :: rest2 =>
              cases hft : TlvPacketType.fromRepr pt with
              | none =>
                  simp only [hft, Option.some.injEq, Except.ok.injEq,
                    Prod.mk.injEq] at h
                  exact ⟨pt, by rw [h.2], hft⟩
              | some packet_type =>
                  simp only [hft] at h
                  match rest2 with
                  | [] => simp at h
                  | [a] => simp at h
                  | a :: b :: rest3 =>
                      by_cases hlen : rest3.length < a * 256 + b
                      · simp [hlen] at h
                      · simp [hlen] at h
        · simp [hh] at h

/-- Witness for C4 (amended): a recognized CompressedIP frame with a
2-byte payload, and an unrecognized frame. -/
theorem tlv_read_consumes_exactly_length_witness :
    (∃ (t a b : Nat) (body : List Nat),
        [0x7F, 0x03, 0x00, 0x02, 0xCC, 0xDD, 0xEE] = 0x7F :: t :: a :: b :: body ∧
        (⟨.CompressedIP, [0xCC, 0xDD]⟩ : TlvPacket).data = body.take (a * 256 + b) ∧
        [0xEE] = body.drop (a * 256 + b) ∧
        (⟨.CompressedIP, [0xCC, 0xDD]⟩ : TlvPacket).data.length = a * 256 + b ∧
        body.length = (a * 256 + b) + [0xEE].length) ∧
    (∃ (t : Nat), [0x7F, 0x10, 0x09] = 0x7F :: t :: [0x09] ∧
        TlvPacketType.fromRepr t = none) := by
  constructor
  · exact tlv_read_consumes_exactly_length.1
      [0x7F, 0x03, 0x00, 0x02, 0xCC, 0xDD, 0xEE] [0xEE]
      ⟨.CompressedIP, [0xCC, 0xDD]⟩ (by rfl)
  · exact tlv_read_consumes_exactly_length.2 [0x7F, 0x10, 0x09] [0x09] (by rfl)

/-! ## Descrambler (`crates/chibitv/src/descrambler.rs`)

The smart card and the cryptographic primitives live outside the
repository; `push_ecm` is therefore parameterized over the SHA-256
digest function and over the card's responses for the one exchange it
performs (`a0_init` stands for the 8 random bytes drawn from the RNG,
`setting_response_data` and `ks` for the card's two response payloads),
and `descramble` over the AES-128-CTR transform. -/

/-- `descrambler::DecryptionKey`. -/
structure DecryptionKey where
  odd : List Nat
  even : List Nat
deriving DecidableEq, Repr

/-- The `Descrambler`'s pure state: the configured master key, the
current decryption key, and the per-ECM key cache.  The `HashMap` keyed
by the exact 148 ECM bytes is modelled as an association list whose
lookup returns the most recently inserted binding. -/
structure Descrambler where
  master_key : List Nat
  key : Option DecryptionKey
  key_cache : List (List Nat × DecryptionKey)
deriving DecidableEq, Repr

/-- `HashMap::get` on the modelled cache. -/
def cacheGet (cache : List (List Nat × DecryptionKey)) (ecm : List Nat) :
    Option DecryptionKey :=
  match cache with
  | [] => none
  | (k, v) :: rest => if k = ecm then some v else cacheGet rest ecm

/-- The byte-wise XOR loop `for (i, byte) in hash.iter_mut() { *byte ^= ks[i] }`.
Defined only when `ks` is at least as long as `hash` (indexing `ks[i]`
would otherwise panic; the guard is in `pushEcmDerive`). -/
def xorBytes (hash ks : List Nat) : List Nat :=
  (hash.zip ks).map fun p => p.1 ^^^ p.2

/-- The non-cached path of `Descrambler::push_ecm`: the full smart-card
exchange and key derivation.  `none` models a panic (the
`assert_eq!(hash, a0_hash)` authentication check) or a propagated error
(the `try_into` conversions to `[u8; 16]`). -/
def pushEcmDerive (sha256 : List Nat → List Nat) (d : Descrambler)
    (ecm a0_init setting_response_data ks : List Nat) : Option Descrambler :=
  let a0_response := setting_response_data.take 8
  let a0_hash := setting_response_data.drop 8
  let kcl := sha256 (d.master_key ++ a0_init ++ a0_response)
  let hash := sha256 (kcl ++ a0_init)
  if hash ≠ a0_hash then none -- assert_eq! panics: CAS authentication failure
  else
    let ecm_init := (ecm.drop 0x04).take (0x1B - 0x04) -- &ecm[0x04..0x1B]
    let digest := sha256 (kcl ++ ecm_init)
    if ks.length < digest.length then none -- ks[i] would panic
    else
      let h := xorBytes digest ks
      let odd := h.take 0x10
      let even := h.drop 0x10
      if odd.length = 16 ∧ even.length = 16 then
        let key : DecryptionKey := ⟨odd, even⟩
        some { d with key := some key, key_cache := (ecm, key) :: d.key_cache }
      else none -- try_into::<[u8; 16]> fails

/-- `Descrambler::push_ecm`: serve the key from the cache when the exact
ECM bytes were seen before, otherwise run the full exchange. -/
def pushEcm (sha256 : List Nat → List Nat) (d : Descrambler)
    (ecm a0_init setting_response_data ks : List Nat) : Option Descrambler :=
  match cacheGet d.key_cache ecm with
  | some k => some { d with key := some k }
  | none => pushEcmDerive sha256 d ecm a0_init setting_response_data ks

/-- `Descrambler::clear`. -/
def Descrambler.clear (d : Descrambler) : Descrambler :=
  { d with key := none, key_cache := [] }

/-- **C1.** For a newly observed 148-byte ECM (not in the cache), when
the card authentication check passes, the derived keys satisfy
`Kcl = SHA-256(master_key ++ A0_init ++ A0_response)`,
`H = SHA-256(Kcl ++ ECM[0x04..0x1B])` XORed byte-wise with the card's
`Ks`, `odd = H[0..16]`, `even = H[16..32]`; this pair becomes the current
key and is inserted into the cache keyed by the exact ECM bytes. -/
theorem push_ecm_derives_keys (sha256 : List Nat → List Nat) (d : Descrambler)
    (ecm a0_init setting_response_data ks : List Nat)
    (hmiss : cacheGet d.key_cache ecm = none)
    (hdig : ∀ x, (sha256 x).length = 32)
    (hks : ks.length = 32)
    (hauth : sha256 (sha256 (d.master_key ++ a0_init ++ setting_response_data.take 8)
        ++ a0_init) = setting_response_data.drop 8) :
    pushEcm sha256 d ecm a0_init setting_response_data ks =
      (let kcl := sha256 (d.master_key ++ a0_init ++ setting_response_data.take 8)
       let h := xorBytes (sha256 (kcl ++ (ecm.drop 4).take 23)) ks
       let key : DecryptionKey := ⟨h.take 16, h.drop 16⟩
       some { d with key := some key, key_cache := (ecm, key) :: d.key_cache }) ∧
    ∀ d', pushEcm sha256 d ecm a0_init setting_response_data ks = some d' →
      d'.key = some ⟨(xorBytes (sha256 (sha256 (d.master_key ++ a0_init
          ++ setting_response_data.take 8) ++ (ecm.drop 4).take 23)) ks).take 16,
        (xorBytes (sha256 (sha256 (d.master_key ++ a0_init
          ++ setting_response_data.take 8) ++ (ecm.drop 4).take 23)) ks).drop 16⟩ ∧
      cacheGet d'.key_cache ecm = d'.key := by
  have hxlen : ∀ x : List Nat,
      (xorBytes (sha256 x) ks).length = 32 := by
    intro x
    simp [xorBytes, hks, hdig]
  have hmain : pushEcm sha256 d ecm a0_init setting_response_data ks =
      (let kcl := sha256 (d.master_key ++ a0_init ++ setting_response_data.take 8)
       let h := xorBytes (sha256 (kcl ++ (ecm.drop 4).take 23)) ks
       let key : DecryptionKey := ⟨h.take 16, h.drop 16⟩
       some { d with key := some key, key_cache := (ecm, key) :: d.key_cache }) := by
    simp only [pushEcm, pushEcmDerive, hmiss]
    rw [if_neg (by rw [hauth]; simp)]
    rw [if_neg (by simp [hks, hdig])]
    rw [if_pos (by
      refine ⟨?_, ?_⟩
      · rw [List.length_take, hxlen]
        norm_num
      · rw [List.length_drop, hxlen])]
  refine ⟨hmain, ?_⟩
  intro d' hd'
  rw [hmain] at hd'
  simp only [Option.some.injEq] at hd'
  subst hd'
  refine ⟨rfl, ?_⟩
  simp [cacheGet]

/-- Witness for C1: a concrete run with the zero digest function, an
all-zero master key and card response, and `Ks = 32 × 0x01`. -/
theorem push_ecm_derives_keys_witness :
    pushEcm (fun _ => List.replicate 32 0)
        ⟨List.replicate 32 0, none, []⟩
        (List.replicate 148 0xAB) (List.replicate 8 0x11)
        (List.replicate 40 0) (List.replicate 32 1) =
      some ⟨List.replicate 32 0,
        some ⟨List.replicate 16 1, List.replicate 16 1⟩,
        [(List.replicate 148 0xAB, ⟨List.replicate 16 1, List.replicate 16 1⟩)]⟩ := by
  have h := (push_ecm_derives_keys (fun _ => List.replicate 32 0)
      ⟨List.replicate 32 0, none, []⟩
      (List.replicate 148 0xAB) (List.replicate 8 0x11)
      (List.replicate 40 0) (List.replicate 32 1)
      (by rfl) (fun _ => by simp) (by simp) (by simp)).1
  rw [h]
  norm_num
  constructor
  · decide
  · decide

/-- **C10.** `Descrambler::clear` removes the current key and empties the
ECM key cache; consequently a subsequent `push_ecm` of any ECM — cached
before the clear or not — misses the cache and performs the full
smart-card exchange (`pushEcmDerive`). -/
theorem descrambler_clear_resets :
    ∀ (d : Descrambler),
      d.clear.key = none ∧
      d.clear.key_cache = [] ∧
      ∀ (sha256 : List Nat → List Nat) (ecm a0_init srd ks : List Nat),
        cacheGet d.clear.key_cache ecm = none ∧
        pushEcm sha256 d.clear ecm a0_init srd ks =
          pushEcmDerive sha256 d.clear ecm a0_init srd ks := by
  intro d
  refine ⟨rfl, rfl, ?_⟩
  intro sha256 ecm a0_init srd ks
  exact ⟨rfl, rfl⟩

/-! ## Descrambling of MMTP payloads (`Descrambler::descramble`) -/

/-- `chibitv_b61::EncryptionFlag` with its wire representation. -/
inductive EncryptionFlag where
  | Unscrambled
  | Reserved
  | Even
  | Odd
deriving DecidableEq, Repr

/-- `EncryptionFlag::from_repr`. -/
def EncryptionFlag.fromRepr (n : Nat) : Option EncryptionFlag :=
  if n = 0x00 then some .Unscrambled
  else if n = 0x01 then some .Reserved
  else if n = 0x02 then some .Even
  else if n = 0x03 then some .Odd
  else none

/-- `mmtp::MmtpExtensionHeader`. -/
structure MmtpExtensionHeader where
  header_type : Nat
  data : List Nat
deriving DecidableEq, Repr

/-- The fields of `mmtp::MmtpPacket` that `descramble` consumes. -/
structure MmtpPacket where
  rap_flag : Bool
  packet_id : Nat
  packet_sequence_number : Nat
  extension_header : Option MmtpExtensionHeader
deriving DecidableEq, Repr

/-- Big-endian `u16::to_be_bytes`. -/
def be16 (n : Nat) : List Nat :=
  [n / 256 % 256, n % 256]

/-- Big-endian `u32::to_be_bytes`. -/
def be32 (n : Nat) : List Nat :=
  [n / 2 ^ 24 % 256, n / 2 ^ 16 % 256, n / 2 ^ 8 % 256, n % 256]

/-- `Bytes::get_u16` on the modelled buffer: big-endian result and the
rest; `none` is the panic on underflow. -/
def getU16 : List Nat → Option (Nat × List Nat)
  | a :: b :: rest => some (a * 256 + b, rest)
  | _ => none

/-- The closure passed to `and_then` in `Descrambler::descramble`,
parsing the scrambling-control extension.  Outer `none` is a panic
(failed assertion or buffer underflow); the inner `Option` is the
closure's own `Option` return (`none` flows into
`unwrap_or(Unscrambled)`). -/
def parseScramblingExtension (hdr : MmtpExtensionHeader) :
    Option (Option EncryptionFlag) :=
  if hdr.header_type ≠ 0x0000 then none -- assert_eq!(header.header_type, 0x0000)
  else match getU16 hdr.data with
    | none => none
    | some (extension_type, rest) =>
      if extension_type &&& 0x7FFF ≠ 0x0001 then some none
      else match getU16 rest with
        | none => none
        | some (extension_length, rest2) =>
          if extension_length ≠ 1 then none -- assert_eq!(extension_length, 1)
          else match rest2 with
            | [] => none -- get_u8 underflow
            | payload :: _ =>
              if payload &&& 0b10 ≠ 0 then none -- assert MAC bit zero
              else if payload &&& 0b1 ≠ 0 then none -- assert SICV bit zero
              else some (EncryptionFlag.fromRepr ((payload &&& 0b11000) >>> 3))

/-- The encryption flag of an MMTP packet:
`extension_header.and_then(closure).unwrap_or(Unscrambled)`.  `none` is a
panic inside the closure. -/
def encryptionFlagOf (eh : Option MmtpExtensionHeader) : Option EncryptionFlag :=
  match eh with
  | none => some .Unscrambled
  | some hdr =>
      match parseScramblingExtension hdr with
      | none => none
      | some f => some (f.getD .Unscrambled)

/-- The 16-byte initialization vector built by `descramble`. -/
def descrambleIv (pkt : MmtpPacket) : List Nat :=
  be16 pkt.packet_id ++ be32 pkt.packet_sequence_number ++ List.replicate 10 0

/-- `Descrambler::descramble`, parameterized over the AES-128-CTR
transform `aesCtr key iv data`.  Outer `none` is a panic,
`Except.error ()` the `NoDecryptionKeyError`, `Except.ok` the final
content of the payload buffer (it is rewritten in place in Rust). -/
def descramble (aesCtr : List Nat → List Nat → List Nat → List Nat)
    (d : Descrambler) (pkt : MmtpPacket) (data : List Nat) :
    Option (Except Unit (List Nat)) :=
  match encryptionFlagOf pkt.extension_header with
  | none => none
  | some flag =>
    match flag with
    | .Even | .Odd =>
        match d.key with
        | none => some (.error ()) -- NoDecryptionKeyError
        | some k =>
            let keyBytes := match flag with
              | .Even => k.even
              | _ => k.odd
            let plaintext := aesCtr keyBytes (descrambleIv pkt) data
            -- data.copy_from_slice(&plaintext) panics on a length mismatch
            if plaintext.length = data.length then some (.ok plaintext) else none
    | _ => some (.ok data) -- Unscrambled / Reserved: no-op

/-- **C2.** With a key established, a packet whose extension header
carries flag `Odd` (resp. `Even`) has its payload rewritten to its
AES-128-CTR decryption under the odd (resp. even) 16-byte key and the IV
`packet_id (BE u16) ++ packet_sequence_number (BE u32) ++ 10 zero bytes`;
a packet whose flag is `Unscrambled` or `Reserved`, or that has no
extension header, is left byte-for-byte unchanged. -/
theorem descramble_key_iv_selection
    (aesCtr : List Nat → List Nat → List Nat → List Nat)
    (d : Descrambler) (pkt : MmtpPacket) (data : List Nat) (k : DecryptionKey)
    (hkey : d.key = some k)
    (hlen : ∀ key iv, (aesCtr key iv data).length = data.length) :
    (encryptionFlagOf pkt.extension_header = some .Odd →
        descramble aesCtr d pkt data =
          some (.ok (aesCtr k.odd
            (be16 pkt.packet_id ++ be32 pkt.packet_sequence_number
              ++ List.replicate 10 0) data))) ∧
    (encryptionFlagOf pkt.extension_header = some .Even →
        descramble aesCtr d pkt data =
          some (.ok (aesCtr k.even
            (be16 pkt.packet_id ++ be32 pkt.packet_sequence_number
              ++ List.replicate 10 0) data))) ∧
    (encryptionFlagOf pkt.extension_header = some .Unscrambled →
        descramble aesCtr d pkt data = some (.ok data)) ∧
    (encryptionFlagOf pkt.extension_header = some .Reserved →
        descramble aesCtr d pkt data = some (.ok data)) ∧
    (pkt.extension_header = none →
        descramble aesCtr d pkt data = some (.ok data)) := by
  refine ⟨?_, ?_, ?_, ?_, ?_⟩
  · intro hf
    unfold descramble
    rw [hf, hkey]
    simp [descrambleIv, hlen]
  · intro hf
    unfold descramble
    rw [hf, hkey]
    simp [descrambleIv, hlen]
  · intro hf
    unfold descramble
    rw [hf]
  · intro hf
    unfold descramble
    rw [hf]
  · intro hf
    unfold descramble
    rw [hf]
    rfl

/-- Witness for C2: the identity transform, a concrete key, a packet with
an Odd-flagged extension header (`payload = 0b0001_1000`). -/
theorem descramble_key_iv_selection_witness :
    encryptionFlagOf (some ⟨0, [0x00, 0x01, 0x00, 0x01, 0b11000]⟩) = some .Odd ∧
    descramble (fun _ _ data => data)
        ⟨[], some ⟨List.replicate 16 7, List.replicate 16 9⟩, []⟩
        ⟨false, 0x0101, 1, some ⟨0, [0x00, 0x01, 0x00, 0x01, 0b11000]⟩⟩
        [10, 20, 30] = some (.ok [10, 20, 30]) := by
  have h := (descramble_key_iv_selection (fun _ _ data => data)
      ⟨[], some ⟨List.replicate 16 7, List.replicate 16 9⟩, []⟩
      ⟨false, 0x0101, 1, some ⟨0, [0x00, 0x01, 0x00, 0x01, 0b11000]⟩⟩
      [10, 20, 30] ⟨List.replicate 16 7, List.replicate 16 9⟩
      rfl (fun _ _ => rfl)).1
  exact ⟨by decide, h (by decide)⟩

/-! ## HEVC framer (`crates/chibitv/src/hevc.rs`) -/

/-- `hevc::HevcParser`. -/
structure HevcParser where
  buf : List Nat
  frame_start_found : Bool
deriving DecidableEq, Repr

/-- `HevcParser::default()`. -/
def HevcParser.initial : HevcParser := ⟨[], false⟩

/-- The loop body of `HevcParser::find_next_frame`: `st` is the 8-byte
sliding window (initially eight `0xFF`s), `i` the index of the byte about
to be shifted in. -/
def findNextFrameAux : List Nat → Nat → List Nat → Option Nat
  | _, _, [] => none
  | st, i, b :: rest =>
      let st' := st.drop 1 ++ [b]
      if st'.getD 2 0xFF = 0x00 ∧ st'.getD 3 0xFF = 0x00 ∧ st'.getD 4 0xFF = 0x01
          ∧ ((st'.getD 5 0xFF &&& 1) <<< 5 ||| (st'.getD 6 0xFF >>> 3)) = 0
          ∧ (st'.getD 5 0xFF &&& 0x7E) >>> 1 = 35 then
        some (if st'.getD 1 0xFF = 0 then i - 6 else i - 5)
      else
        findNextFrameAux st' (i + 1) rest

/-- `HevcParser::find_next_frame`: index of the first octet of the next
frame within `buf` (the leading zeros of the start code preceding an
Access Unit Delimiter NAL with `layer_id = 0`). -/
def findNextFrame (buf : List Nat) : Option Nat :=
  findNextFrameAux (List.replicate 8 0xFF) 0 buf

/-- `HevcParser::push`.  Returns the updated parser and the emitted frame,
if any.  Note the translated early return: when the accumulated buffer is
empty and the boundary is at index 0, the function returns `None`
*without* appending `buf` to the internal buffer. -/
def HevcParser.push (p : HevcParser) (buf : List Nat) :
    HevcParser × Option (List Nat) :=
  match findNextFrame buf with
  | some idx =>
      let remaining := p.buf.length
      if remaining = 0 ∧ idx = 0 then
        (p, none) -- early return: `buf` is dropped
      else
        let full := p.buf ++ buf
        (⟨full.drop (remaining + idx), p.frame_start_found⟩,
         some (full.take (remaining + idx)))
  | none => ({ p with buf := p.buf ++ buf }, none)

/-- Fold a sequence of pushes, collecting every emitted frame in order. -/
def HevcParser.run (p : HevcParser) (pushes : List (List Nat)) :
    HevcParser × List (List Nat) :=
  match pushes with
  | [] => (p, [])
  | b :: rest =>
      let (p', frame) := p.push b
      let (pf, frames) := p'.run rest
      (pf, frame.toList ++ frames)

/-- **C8.** The byte-conservation claim — concatenation of emitted frames
plus residual buffer equals the concatenation of all pushed bytes — fails
on the code: pushing the single buffer `00 00 01 46 01 00` (a start code
followed by an Access Unit Delimiter NAL with `layer_id = 0`) into a
fresh parser takes the `remaining == 0 && idx == 0` early return, which
skips `self.buf.put_slice(buf)`, so the six pushed bytes are neither
emitted nor retained. -/
theorem hevc_push_drops_bytes_at_zero_boundary :
    HevcParser.run HevcParser.initial [[0x00, 0x00, 0x01, 0x46, 0x01, 0x00]]
        = (HevcParser.initial, []) ∧
    ((HevcParser.run HevcParser.initial
        [[0x00, 0x00, 0x01, 0x46, 0x01, 0x00]]).2.flatten ++
      (HevcParser.run HevcParser.initial
        [[0x00, 0x00, 0x01, 0x46, 0x01, 0x00]]).1.buf
      ≠ [[0x00, 0x00, 0x01, 0x46, 0x01, 0x00]].flatten) := by
  constructor
  · rfl
  · decide

/-! ## MMT demultiplexer stream state (`crates/chibitv/src/mmt.rs`)

`BTreeMap<u32, _>` is modelled as an association list sorted by
ascending key: `btInsert` mirrors `BTreeMap::insert` (replace or insert
in key order), dropping the head mirrors `BTreeMap::pop_first` (the
smallest key is first).  `f64` timestamp arithmetic is modelled over
`ℚ`. -/

/-- `MAX_TIMESTAMP_DESCRIPTOR`. -/
def MAX_TIMESTAMP_DESCRIPTOR : Nat := 64

/-- One entry of `MpuExtendedTimestamp::offsets`. -/
structure MpuTimestampOffset where
  pts_dts_offset : Nat
  pts_offset : Nat
deriving DecidableEq, Repr

/-- `descriptor::MpuExtendedTimestamp` (one per-MPU record). -/
structure MpuExtendedTimestamp where
  mpu_sequence_number : Nat
  mpu_decoding_time_offset : Nat
  num_of_au : Nat
  offsets : List MpuTimestampOffset
deriving DecidableEq, Repr

/-- `mmt::MmtStream`: the per-`packet_id` state.  The defragmenter part
is the `Defragmenter` model above; `dts_pts` is the staged pair for the
next emitted access unit. -/
structure MmtStream where
  packet_id : Nat
  deflagmenter : Defragmenter
  last_sequence_number : Nat
  au_count : Nat
  timescale : Option Nat
  timestamps : List (Nat × Nat)
  ext_timestamps : List (Nat × MpuExtendedTimestamp)
  dts_pts : Option (ℚ × ℚ)
  asset_type : Option (List Nat)
  hevc_framer : HevcParser
deriving DecidableEq, Repr

/-- The byte tag `"hev1"`. -/
def hev1Tag : List Nat := [0x68, 0x65, 0x76, 0x31]

/-- The byte tag `"mp4a"`. -/
def mp4aTag : List Nat := [0x6D, 0x70, 0x34, 0x61]

/-- Conversion of a 64-bit NTP timestamp (32.32 fixed point) to seconds,
after `(t >> 32) as f64 + (t & 0xFFFFFFFF) as f64 / 2^32`. -/
def ntpToSeconds (t : Nat) : ℚ :=
  ((t >>> 32 : Nat) : ℚ) + ((t &&& 0xFFFFFFFF : Nat) : ℚ) / (2 ^ 32 : ℚ)

/-- The timestamp-staging block at the top of the `filter_map` closure in
`MmtDemuxer::read_mfu`: when no `(dts, pts)` pair is staged and the MPU
presentation timestamp, the extended-timestamp record and the timescale
are all available, compute and stage the pair and advance `au_count`.
`none` models a panic: the `assert!(au_count < num_of_au)` or an
out-of-bounds `offsets[_]` index. -/
def stageTimestamps (timestamp : Option Nat) (ext : Option MpuExtendedTimestamp)
    (s : MmtStream) : Option MmtStream :=
  match s.dts_pts with
  | some _ => some s
  | none =>
    match timestamp, ext, s.timescale with
    | some t, some e, some scale =>
        if s.au_count < e.num_of_au then
          if s.au_count < e.offsets.length then
            let dts0 : ℚ := ntpToSeconds t
              - (e.mpu_decoding_time_offset : ℚ) / (scale : ℚ)
            let dts : ℚ := dts0 + (((List.range s.au_count).map fun i =>
              ((e.offsets.getD i ⟨0, 0⟩).pts_offset : ℚ) / (scale : ℚ)).sum)
            let pts : ℚ := dts
              + ((e.offsets.getD s.au_count ⟨0, 0⟩).pts_dts_offset : ℚ) / (scale : ℚ)
            some { s with dts_pts := some (dts, pts), au_count := s.au_count + 1 }
          else none -- offsets[i] out of bounds panics
        else none -- assert!(stream.au_count < ext_timestamp.num_of_au) fails
    | _, _, _ => some s

/-- An emitted `Payload::Mfu` packet. -/
structure MfuPacket where
  packet_id : Nat
  dts : Option ℚ
  pts : Option ℚ
  data : List Nat
deriving DecidableEq, Repr

/-- The asset-type dispatch of the `filter_map` closure in
`MmtDemuxer::read_mfu`, after timestamp staging: wrap the buffer
according to `asset_type` (`"hev1"` through the HEVC framer with its
4-byte length prefix replaced by a start code, `"mp4a"` behind a
LATM/LOAS sync header, anything else dropped), and take the staged
`(dts, pts)` on emission.  `none` models a panic (`get_u32` underflow or
the length assertion in the `"hev1"` arm). -/
def dispatchAccessUnit (s1 : MmtStream) (data : List Nat) :
    Option (MmtStream × Option MfuPacket) :=
  match s1.asset_type with
  | none => some (s1, none) -- `stream.asset_type?`: the closure yields None
  | some tag =>
    if tag = hev1Tag then
      if 4 ≤ data.length then
        -- bytes.get_u32() reads the big-endian length prefix, which must
        -- equal the remaining byte count (assert_eq!)
        if ((data.getD 0 0 * 256 + data.getD 1 0) * 256
            + data.getD 2 0) * 256 + data.getD 3 0 = data.length - 4 then
          match (s1.hevc_framer.push ([0x00, 0x00, 0x01] ++ data.drop 4)).2 with
          | none =>
              -- framer buffered; nothing emitted yet
              some ({ s1 with
                hevc_framer := (s1.hevc_framer.push ([0x00, 0x00, 0x01] ++ data.drop 4)).1 },
                none)
          | some f =>
              some ({ s1 with
                hevc_framer := (s1.hevc_framer.push ([0x00, 0x00, 0x01] ++ data.drop 4)).1,
                dts_pts := none },
                some ⟨s1.packet_id, s1.dts_pts.map Prod.fst,
                  s1.dts_pts.map Prod.snd, f⟩)
        else none -- assert_eq!(size, bytes.remaining()) fails
      else none -- bytes.get_u32() underflow panics
    else if tag = mp4aTag then
      some ({ s1 with dts_pts := none },
        some ⟨s1.packet_id, s1.dts_pts.map Prod.fst, s1.dts_pts.map Prod.snd,
          [0x56, 0xE0 ||| ((data.length >>> 8) % 256), data.length % 256] ++ data⟩)
    else
      some (s1, none) -- unknown asset type: dropped

/-- The whole body of the `filter_map` closure in `MmtDemuxer::read_mfu`,
applied to one access-unit buffer: stage timestamps, then dispatch on the
asset type.  `none` models a panic. -/
def processAccessUnit (timestamp : Option Nat) (ext : Option MpuExtendedTimestamp)
    (s : MmtStream) (data : List Nat) : Option (MmtStream × Option MfuPacket) :=
  match stageTimestamps timestamp ext s with
  | none => none
  | some s1 => dispatchAccessUnit s1 data

/-- Any packet emitted by the asset dispatch carries exactly the staged
`(dts, pts)` pair of the stream it was emitted from. -/
theorem dispatchAccessUnit_emits_staged (s1 : MmtStream) (data : List Nat)
    (s' : MmtStream) (pkt : MfuPacket)
    (h : dispatchAccessUnit s1 data = some (s', some pkt)) :
    pkt.dts = s1.dts_pts.map Prod.fst ∧ pkt.pts = s1.dts_pts.map Prod.snd := by
  unfold dispatchAccessUnit at h
  split at h
  · exact absurd h (by simp)
  · split at h
    · split at h
      · split at h
        · split at h
          · exact absurd h (by simp)
          · simp only [Option.some.injEq, Prod.mk.injEq] at h
            obtain ⟨-, hpkt⟩ := h
            rw [← hpkt]
            exact ⟨rfl, rfl⟩
        · exact absurd h (by simp)
      · exact absurd h (by simp)
    · split at h
      · simp only [Option.some.injEq, Prod.mk.injEq] at h
        obtain ⟨-, hpkt⟩ := h
        rw [← hpkt]
        exact ⟨rfl, rfl⟩
      · exact absurd h (by simp)

/-- `BTreeMap::insert` on the sorted association-list model. -/
def btInsert {α : Type} (k : Nat) (v : α) : List (Nat × α) → List (Nat × α)
  | [] => [(k, v)]
  | (k', v') :: rest =>
      if k < k' then (k, v) :: (k', v') :: rest
      else if k = k' then (k, v) :: rest
      else (k', v') :: btInsert k v rest

/-- The `while map.len() > MAX_TIMESTAMP_DESCRIPTOR { map.pop_first(); }`
eviction loop: repeatedly remove the entry with the smallest key (the
head of the sorted association list).  Written structurally: each loop
iteration removes the head, so recursing on the tail is the same loop. -/
def evictOldest {α : Type} : List (Nat × α) → List (Nat × α)
  | [] => []
  | x :: rest =>
      if MAX_TIMESTAMP_DESCRIPTOR < (x :: rest).length then evictOldest rest
      else x :: rest

/-- The descriptors `MmtDemuxer::read_message` consumes from an MPT
asset. -/
inductive DescriptorM where
  | mpuTimestamp (timestamps : List (Nat × Nat))
  | mpuExtendedTimestamp (timescale : Option Nat)
      (timestamps : List MpuExtendedTimestamp)
  | other
deriving Repr

/-- One asset of an MPT table, as consumed by `read_message`. -/
structure MptAsset where
  asset_type : List Nat
  asset_descriptors : List DescriptorM
deriving Repr

/-- The per-descriptor `match` inside the asset loop of `read_message`. -/
def applyDescriptorToStream (s : MmtStream) (d : DescriptorM) : MmtStream :=
  match d with
  | .mpuTimestamp ts =>
      { s with timestamps := ts.foldl (fun m p => btInsert p.1 p.2 m) s.timestamps }
  | .mpuExtendedTimestamp scale ts =>
      let s' := match scale with
        | some sc => { s with timescale := some sc }
        | none => s
      { s' with ext_timestamps :=
          ts.foldl (fun m e => btInsert e.mpu_sequence_number e m) s'.ext_timestamps }
  | .other => s

/-- The per-asset body of the MPT loop in `read_message`: set the asset
type, apply every descriptor, then evict the oldest timestamp records
down to the 64-entry cap. -/
def updateStreamWithAsset (s : MmtStream) (a : MptAsset) : MmtStream :=
  let s1 := { s with asset_type := some a.asset_type }
  let s2 := a.asset_descriptors.foldl applyDescriptorToStream s1
  { s2 with timestamps := evictOldest s2.timestamps,
            ext_timestamps := evictOldest s2.ext_timestamps }

/-- The whole asset loop of `read_message` for the assets that target one
stream. -/
def applyMptAssets (s : MmtStream) (assets : List MptAsset) : MmtStream :=
  assets.foldl updateStreamWithAsset s

/-- Keys strictly ascend — the invariant of the `BTreeMap` model. -/
def keysSorted {α : Type} (m : List (Nat × α)) : Prop :=
  List.Pairwise (fun p q => p.1 < q.1) m

/-- When any of the presentation timestamp, the extended-timestamp record
or the timescale is missing and nothing is staged, the staging block
leaves the stream untouched. -/
theorem stageTimestamps_missing (timestamp : Option Nat)
    (ext : Option MpuExtendedTimestamp) (s : MmtStream)
    (hstaged : s.dts_pts = none)
    (hmiss : timestamp = none ∨ ext = none ∨ s.timescale = none) :
    stageTimestamps timestamp ext s = some s := by
  unfold stageTimestamps
  rw [hstaged]
  rcases hmiss with h | h | h
  · subst h
    cases ext <;> cases hts : s.timescale <;> rfl
  · subst h
    cases timestamp <;> cases hts : s.timescale <;> rfl
  · rw [h]
    cases timestamp <;> cases ext <;> rfl

/-- A concrete stream used for the C5 counterexample: nothing staged,
timescale known, `au_count = 0`, asset type `"hev1"`. -/
def streamC5 : MmtStream :=
  { packet_id := 1, deflagmenter := .initial, last_sequence_number := 0,
    au_count := 0, timescale := some 1, timestamps := [], ext_timestamps := [],
    dts_pts := none, asset_type := some hev1Tag, hevc_framer := .initial }

/-- **C5 counterexample.** The claim says an access unit whose `au_count`
has reached `num_of_au` is dropped "and processing continues".  With the
presentation timestamp, extended-timestamp record (here `num_of_au = 0`,
so `au_count = 0` has already reached it) and timescale all available,
the closure hits `assert!(stream.au_count < ext_timestamp.num_of_au)`,
which panics: the result is a panic (`none`), not a dropped access unit
with continued processing (`some (_, none)`). -/
theorem mfu_au_count_overflow_ce :
    processAccessUnit (some 0) (some ⟨0, 0, 0, []⟩) streamC5 [] = none ∧
    (processAccessUnit (some 0) (some ⟨0, 0, 0, []⟩) streamC5 []).isSome = false := by
  constructor <;> rfl

/-- **C5 (amended).** When the MPU's presentation timestamp,
extended-timestamp record and timescale are all available, nothing is
staged yet, and the stream's `au_count` has reached `num_of_au`, the
access unit is not emitted with out-of-range offset indices: the
`assert!(au_count < num_of_au)` fails, so the whole call panics (aborts)
rather than dropping the unit and continuing. -/
theorem mfu_au_count_overflow_panics (t : Nat) (e : MpuExtendedTimestamp)
    (s : MmtStream) (data : List Nat) (scale : Nat)
    (hstaged : s.dts_pts = none) (hscale : s.timescale = some scale)
    (hau : e.num_of_au ≤ s.au_count) :
    processAccessUnit (some t) (some e) s data = none := by
  have hstage : stageTimestamps (some t) (some e) s = none := by
    unfold stageTimestamps
    rw [hstaged, hscale]
    simp [Nat.not_lt.mpr hau]
  unfold processAccessUnit
  rw [hstage]

/-- Witness for C5 (amended), at the counterexample input. -/
theorem mfu_au_count_overflow_panics_witness :
    processAccessUnit (some 0) (some ⟨0, 0, 0, []⟩) streamC5 [] = none :=
  mfu_au_count_overflow_panics 0 ⟨0, 0, 0, []⟩ streamC5 [] 1 rfl rfl (by decide)

/-- **C9.** An access unit of a `"hev1"` or `"mp4a"` stream emitted while
the presentation timestamp, the extended-timestamp record or the
timescale is still missing carries no `dts` and no `pts`; in particular
an `"mp4a"` access unit is always emitted in that situation (never
dropped), behind its LATM/LOAS sync header. -/
theorem mfu_missing_timestamps_emits_none (timestamp : Option Nat)
    (ext : Option MpuExtendedTimestamp) (s : MmtStream) (data : List Nat)
    (hstaged : s.dts_pts = none)
    (hmiss : timestamp = none ∨ ext = none ∨ s.timescale = none) :
    (∀ (s' : MmtStream) (pkt : MfuPacket),
        processAccessUnit timestamp ext s data = some (s', some pkt) →
        pkt.dts = none ∧ pkt.pts = none) ∧
    (s.asset_type = some mp4aTag →
        processAccessUnit timestamp ext s data =
          some ({ s with dts_pts := none },
            some ⟨s.packet_id, none, none,
              [0x56, 0xE0 ||| ((data.length >>> 8) % 256), data.length % 256]
                ++ data⟩)) := by
  have hstage := stageTimestamps_missing timestamp ext s hstaged hmiss
  have hpe : processAccessUnit timestamp ext s data = dispatchAccessUnit s data := by
    unfold processAccessUnit
    rw [hstage]
  constructor
  · intro s' pkt hrun
    rw [hpe] at hrun
    have h2 := dispatchAccessUnit_emits_staged s data s' pkt hrun
    rw [hstaged] at h2
    simpa using h2
  · intro hat
    rw [hpe]
    simp only [dispatchAccessUnit, hat, if_true, hstaged]
    rfl

/-- The eviction loop removes exactly the leading (smallest-key) entries
beyond the 64-entry cap. -/
theorem evictOldest_eq_drop {α : Type} (m : List (Nat × α)) :
    evictOldest m = m.drop (m.length - MAX_TIMESTAMP_DESCRIPTOR) := by
  induction m with
  | nil => rfl
  | cons x rest ih =>
      unfold evictOldest
      by_cases h : MAX_TIMESTAMP_DESCRIPTOR < (x :: rest).length
      · rw [if_pos h, ih]
        have h64 : MAX_TIMESTAMP_DESCRIPTOR ≤ rest.length := by
          simp only [List.length_cons] at h
          omega
        have : (x :: rest).length - MAX_TIMESTAMP_DESCRIPTOR
            = (rest.length - MAX_TIMESTAMP_DESCRIPTOR) + 1 := by
          simp only [List.length_cons]
          omega
        rw [this, List.drop_succ_cons]
      · rw [if_neg h]
        have : (x :: rest).length - MAX_TIMESTAMP_DESCRIPTOR = 0 := by omega
        rw [this, List.drop_zero]

/-- After eviction a map never holds more than 64 entries. -/
theorem evictOldest_length_le {α : Type} (m : List (Nat × α)) :
    (evictOldest m).length ≤ MAX_TIMESTAMP_DESCRIPTOR := by
  rw [evictOldest_eq_drop, List.length_drop]
  omega

/-- Every entry produced by `btInsert` is the inserted pair or one of the
old entries. -/
theorem mem_btInsert {α : Type} {k : Nat} {v : α} {m : List (Nat × α)}
    {x : Nat × α} (hx : x ∈ btInsert k v m) : x = (k, v) ∨ x ∈ m := by
  induction m with
  | nil => simpa [btInsert] using hx
  | cons y rest ih =>
      unfold btInsert at hx
      split_ifs at hx with h1 h2
      · rcases List.mem_cons.mp hx with h | h
        · exact Or.inl h
        · exact Or.inr h
      · rcases List.mem_cons.mp hx with h | h
        · exact Or.inl h
        · exact Or.inr (List.mem_cons_of_mem _ h)
      · rcases List.mem_cons.mp hx with h | h
        · exact Or.inr (h ▸ List.mem_cons_self _ _)
        · rcases ih h with h' | h'
          · exact Or.inl h'
          · exact Or.inr (List.mem_cons_of_mem _ h')

/-- `btInsert` preserves the strictly-ascending-keys invariant of the
`BTreeMap` model. -/
theorem keysSorted_btInsert {α : Type} (k : Nat) (v : α) (m : List (Nat × α))
    (hs : keysSorted m) : keysSorted (btInsert k v m) := by
  induction m with
  | nil => simp [btInsert, keysSorted]
  | cons y rest ih =>
      rw [keysSorted, List.pairwise_cons] at hs
      obtain ⟨hall, hrest⟩ := hs
      unfold btInsert
      split_ifs with h1 h2
      · rw [keysSorted, List.pairwise_cons]
        refine ⟨?_, ?_⟩
        · intro x hx
          rcases List.mem_cons.mp hx with h | h
          · rw [h]
            simpa using h1
          · exact lt_trans h1 (hall x h)
        · rw [List.pairwise_cons]
          exact ⟨hall, hrest⟩
      · rw [keysSorted, List.pairwise_cons]
        refine ⟨?_, hrest⟩
        intro x hx
        rw [h2]
        exact hall x hx
      · rw [keysSorted, List.pairwise_cons]
        refine ⟨?_, ih hrest⟩
        intro x hx
        rcases mem_btInsert hx with h | h
        · rw [h]
          omega
        · exact hall x h

/-- `updateStreamWithAsset` bounds both maps by the 64-entry cap. -/
theorem updateStreamWithAsset_le (s : MmtStream) (a : MptAsset) :
    (updateStreamWithAsset s a).timestamps.length ≤ MAX_TIMESTAMP_DESCRIPTOR ∧
    (updateStreamWithAsset s a).ext_timestamps.length ≤ MAX_TIMESTAMP_DESCRIPTOR :=
  ⟨evictOldest_length_le _, evictOldest_length_le _⟩

/-- **C7.** The per-asset MPT processing keeps `timestamps` and
`ext_timestamps` at no more than 64 entries after every demultiplexer
operation (starting from any state within the cap), and the eviction loop
removes exactly the entries with the smallest MPU sequence numbers — the
head entries of the key-sorted map, every one of which compares below
every surviving entry — while `btInsert` maintains the key ordering the
argument relies on. -/
theorem timestamp_maps_bounded (s : MmtStream) (assets : List MptAsset)
    (hts : s.timestamps.length ≤ 64) (hext : s.ext_timestamps.length ≤ 64) :
    ((applyMptAssets s assets).timestamps.length ≤ 64 ∧
     (applyMptAssets s assets).ext_timestamps.length ≤ 64) ∧
    (∀ (α : Type) (m : List (Nat × α)),
      evictOldest m = m.drop (m.length - 64) ∧
      (keysSorted m →
        ∀ p ∈ m.take (m.length - 64), ∀ q ∈ evictOldest m, p.1 < q.1)) ∧
    (∀ (α : Type) (k : Nat) (v : α) (m : List (Nat × α)),
      keysSorted m → keysSorted (btInsert k v m)) := by
  refine ⟨?_, ?_, fun α k v m h => keysSorted_btInsert k v m h⟩
  · induction assets generalizing s with
    | nil => exact ⟨hts, hext⟩
    | cons a rest ih =>
        have h := updateStreamWithAsset_le s a
        exact ih (updateStreamWithAsset s a) h.1 h.2
  · intro α m
    refine ⟨evictOldest_eq_drop m, ?_⟩
    intro hsorted p hp q hq
    rw [evictOldest_eq_drop] at hq
    have hsplit := hsorted
    rw [keysSorted, ← List.take_append_drop (m.length - 64) m,
      List.pairwise_append] at hsplit
    exact hsplit.2.2 p hp q hq

/-- Witness for C7: a stream within the cap receiving an MPT asset with
66 timestamp records, and a concrete 66-entry sorted map. -/
theorem timestamp_maps_bounded_witness :
    ((applyMptAssets
        { packet_id := 3, deflagmenter := .initial, last_sequence_number := 0,
          au_count := 0, timescale := none, timestamps := [], ext_timestamps := [],
          dts_pts := none, asset_type := none, hevc_framer := .initial }
        [⟨hev1Tag, [.mpuTimestamp ((List.range 66).map fun i => (i, i))]⟩]).timestamps.length ≤ 64 ∧
     (applyMptAssets
        { packet_id := 3, deflagmenter := .initial, last_sequence_number := 0,
          au_count := 0, timescale := none, timestamps := [], ext_timestamps := [],
          dts_pts := none, asset_type := none, hevc_framer := .initial }
        [⟨hev1Tag, [.mpuTimestamp ((List.range 66).map fun i => (i, i))]⟩]).ext_timestamps.length ≤ 64) ∧
    (0, 0) ∈ (((List.range 66).map fun i => (i, i)).take
        (((List.range 66).map fun i => (i, i)).length - 64)) ∧
    (2, 2) ∈ evictOldest ((List.range 66).map fun i => (i, i)) ∧
    (0 : Nat) < 2 := by
  have h := timestamp_maps_bounded
      { packet_id := 3, deflagmenter := .initial, last_sequence_number := 0,
        au_count := 0, timescale := none, timestamps := [], ext_timestamps := [],
        dts_pts := none, asset_type := none, hevc_framer := .initial }
      [⟨hev1Tag, [.mpuTimestamp ((List.range 66).map fun i => (i, i))]⟩]
      (by decide) (by decide)
  refine ⟨h.1, by decide, by decide, ?_⟩
  exact ((h.2.1 Nat ((List.range 66).map fun i => (i, i))).2
      (by unfold keysSorted; decide))
    (0, 0) (by decide) (2, 2) (by decide)

/-- Witness for C9: a concrete `"mp4a"` stream with no timestamp record
received. -/
theorem mfu_missing_timestamps_emits_none_witness :
    processAccessUnit none none
        { packet_id := 2, deflagmenter := .initial, last_sequence_number := 0,
          au_count := 0, timescale := none, timestamps := [], ext_timestamps := [],
          dts_pts := none, asset_type := some mp4aTag, hevc_framer := .initial }
        [5, 6] =
      some ({ packet_id := 2, deflagmenter := .initial, last_sequence_number := 0,
              au_count := 0, timescale := none, timestamps := [], ext_timestamps := [],
              dts_pts := none, asset_type := some mp4aTag, hevc_framer := .initial },
        some ⟨2, none, none, [0x56, 0xE0, 2, 5, 6]⟩) := by
  have h := (mfu_missing_timestamps_emits_none none none
      { packet_id := 2, deflagmenter := .initial, last_sequence_number := 0,
        au_count := 0, timescale := none, timestamps := [], ext_timestamps := [],
        dts_pts := none, asset_type := some mp4aTag, hevc_framer := .initial }
      [5, 6] rfl (Or.inl rfl)).2 rfl
  rw [h]
  rfl

/-! ## M2TS muxer (`crates/chibitv/src/m2ts.rs`)

The `mpeg2ts` crate types are modelled structurally: a `TsPacket` keeps
its PID, continuity counter and payload; `ContinuityCounter::increment`
is `(cc + 1) % 16`.  `BTreeMap<Pid, _>` is again a sorted association
list (iteration in stored order).  `f64` seconds are exact rationals. -/

/-- `PROGRAM_NUM`. -/
def PROGRAM_NUM : Nat := 0x0001

/-- `pat_pid()`. -/
def patPid : Nat := 0x0000

/-- `pmt_pid()`. -/
def pmtPid : Nat := 0x1000

/-- `m2ts::M2tsStream`: per-PID continuity counter plus the stream id and
ES-info record of elementary streams.  `es_info` is `(elementary_pid,
stream_type)`. -/
structure M2tsStream where
  cc : Nat
  stream_id : Option Nat
  es_info : Option (Nat × Nat)
deriving DecidableEq, Repr

/-- The payloads of the TS packets the muxer writes. -/
inductive TsPayloadM where
  | pat (transport_stream_id : Nat) (table : List (Nat × Nat))
  | pmt (program_num : Nat) (pcr_pid : Option Nat) (es_info : List (Nat × Nat))
  | pes (stream_id : Nat) (dts : Option Nat) (pts : Option Nat) (data : List Nat)
  | raw (data : List Nat)
deriving DecidableEq, Repr

/-- A written TS packet. -/
structure TsPacket where
  pid : Nat
  continuity_counter : Nat
  payload : TsPayloadM
deriving DecidableEq, Repr

/-- `true` exactly on PAT/PMT payloads. -/
def TsPayloadM.isPsi : TsPayloadM → Bool
  | .pat _ _ => true
  | .pmt _ _ _ => true
  | _ => false

/-- `BTreeMap::get` over the association-list model. -/
def assocGet {α : Type} : List (Nat × α) → Nat → Option α
  | [], _ => none
  | (k', v) :: rest, k => if k = k' then some v else assocGet rest k

/-- In-place update of an existing key. -/
def assocSet {α : Type} : List (Nat × α) → Nat → α → List (Nat × α)
  | [], _, _ => []
  | (k', v') :: rest, k, v =>
      if k = k' then (k, v) :: rest else (k', v') :: assocSet rest k v

/-- `m2ts::M2tsMuxer` (without the writer, whose output is returned
explicitly). -/
structure M2tsMuxer where
  streams : List (Nat × M2tsStream)
  last_pat_pmt_ts : Option ℚ
deriving DecidableEq, Repr

/-- `(dts * 90_000) as u64 % Timestamp::MAX`: truncate toward zero
(saturating at zero for negatives, as Rust's float-to-unsigned cast
does) and wrap modulo `2^33`. -/
def scale90k (q : ℚ) : Nat :=
  (Rat.floor (q * 90000)).toNat % 2 ^ 33

/-- The PAT/PMT emission condition of `write_pes`:
`self.last_pat_pmt_ts.is_none_or(|ts| dts - ts < 0.1_f64)`. -/
def patPmtDue (last : Option ℚ) (t : ℚ) : Bool :=
  match last with
  | none => true
  | some ts => decide (t - ts < 1 / 10)

/-- `M2tsMuxer::emit_pat_pmt`: collect every stream's ES info in PID
order, then write one PAT packet (single program `PROGRAM_NUM` mapped to
the PMT PID) and one PMT packet (no PCR PID) with fresh continuity
counters.  `none` models the `unwrap` panics when the PAT or PMT stream
entry is missing. -/
def emitPatPmt (m : M2tsMuxer) : Option (M2tsMuxer × List TsPacket) :=
  match assocGet m.streams patPid, assocGet m.streams pmtPid with
  | some patS, some pmtS =>
      let streams2 :=
        assocSet (assocSet m.streams patPid { patS with cc := (patS.cc + 1) % 16 })
          pmtPid { pmtS with cc := (pmtS.cc + 1) % 16 }
      some ({ m with streams := streams2 },
        [⟨patPid, (patS.cc + 1) % 16, .pat 0x0001 [(PROGRAM_NUM, pmtPid)]⟩,
         ⟨pmtPid, (pmtS.cc + 1) % 16,
           .pmt PROGRAM_NUM none (m.streams.filterMap fun p => p.2.es_info)⟩])
  | _, _ => none

/-- The `while data.has_remaining()` loop of `write_pes`: write 184-byte
raw continuation packets with successive continuity counters, returning
the packets and the final counter value.  The fuel argument is
`data.length`, an upper bound on the iteration count (each iteration
consumes at least one byte). -/
def chunkRawAux (pid : Nat) : Nat → Nat → List Nat → List TsPacket × Nat
  | 0, cc, _ => ([], cc)
  | fuel + 1, cc, data =>
      if data = [] then ([], cc)
      else
        let r := chunkRawAux pid fuel ((cc + 1) % 16) (data.drop 184)
        (⟨pid, (cc + 1) % 16, .raw (data.take 184)⟩ :: r.1, r.2)

/-- The opening of `write_pes`: when a `dts` is present and the PAT/PMT
interval condition holds, emit PAT then PMT and record
`last_pat_pmt_ts ← dts`; otherwise emit nothing.  Returns the updated
muxer and the packets written so far. -/
def writePesPrefix (m : M2tsMuxer) (dts : Option ℚ) :
    Option (M2tsMuxer × List TsPacket) :=
  match dts with
  | some t =>
      if patPmtDue m.last_pat_pmt_ts t then
        (emitPatPmt m).map fun p => ({ p.1 with last_pat_pmt_ts := some t }, p.2)
      else some (m, [])
  | none => some (m, [])

/-- The elementary-stream part of `write_pes`: the PES header packet
carrying the first `188 − 4 − header_len` payload bytes, followed by raw
184-byte continuation packets, all on `pid` with successive continuity
counters.  `none` models the `unwrap` panics (unknown PID, missing
stream id). -/
def writePesBody (m1 : M2tsMuxer) (pid : Nat) (data : List Nat)
    (dts pts : Option ℚ) : Option (M2tsMuxer × List TsPacket) :=
  (assocGet m1.streams pid).bind fun st =>
    st.stream_id.bind fun sid =>
      let headerLen := 9 + (if dts.isSome then 5 else 0)
        + (if pts.isSome then 5 else 0)
      let firstLen := min data.length (188 - 4 - headerLen)
      let rest := chunkRawAux pid (data.drop firstLen).length ((st.cc + 1) % 16)
        (data.drop firstLen)
      some ({ m1 with streams := assocSet m1.streams pid { st with cc := rest.2 } },
        ⟨pid, (st.cc + 1) % 16,
          .pes sid (dts.map scale90k) (pts.map scale90k) (data.take firstLen)⟩
          :: rest.1)

/-- `M2tsMuxer::write_pes`: the PAT/PMT prefix followed by the PES
packets. -/
def writePes (m : M2tsMuxer) (pid : Nat) (data : List Nat)
    (dts pts : Option ℚ) : Option (M2tsMuxer × List TsPacket) :=
  (writePesPrefix m dts).bind fun p1 =>
    (writePesBody p1.1 pid data dts pts).map fun p2 => (p2.1, p1.2 ++ p2.2)

/-- The condition form used by the claim. -/
theorem patPmtDue_iff (last : Option ℚ) (t : ℚ) :
    patPmtDue last t = true ↔
      (last = none ∨ ∃ t0, last = some t0 ∧ t - t0 < 1 / 10) := by
  cases last with
  | none => simp [patPmtDue]
  | some ts => simp [patPmtDue]

/-- Raw continuation packets are never PSI. -/
theorem chunkRawAux_not_psi (pid : Nat) (fuel cc : Nat) (data : List Nat) :
    ∀ p ∈ (chunkRawAux pid fuel cc data).1, p.payload.isPsi = false := by
  induction fuel generalizing cc data with
  | zero => intro p hp; simp [chunkRawAux] at hp
  | succ fuel ih =>
      intro p hp
      unfold chunkRawAux at hp
      split at hp
      · simp at hp
      · rcases List.mem_cons.mp hp with h | h
        · rw [h]
          rfl
        · exact ih _ _ p h

/-- A successful `emit_pat_pmt` writes exactly one PAT packet (one
program, `PROGRAM_NUM ↦ pmtPid`) followed by one PMT packet with no PCR
PID and the collected ES info. -/
theorem emitPatPmt_shape (m m1 : M2tsMuxer) (pkts : List TsPacket)
    (h : emitPatPmt m = some (m1, pkts)) :
    ∃ ccp ccm,
      pkts = [⟨patPid, ccp, .pat 0x0001 [(PROGRAM_NUM, pmtPid)]⟩,
        ⟨pmtPid, ccm, .pmt PROGRAM_NUM none
          (m.streams.filterMap fun p => p.2.es_info)⟩] ∧
      m1.last_pat_pmt_ts = m.last_pat_pmt_ts := by
  unfold emitPatPmt at h
  split at h
  · rename_i patS pmtS hpat hpmt
    simp only [Option.some.injEq, Prod.mk.injEq] at h
    obtain ⟨hm1, hpkts⟩ := h
    exact ⟨(patS.cc + 1) % 16, (pmtS.cc + 1) % 16, hpkts.symm, by rw [← hm1]⟩
  · exact absurd h (by simp)

/-- A successful `writePesBody` leaves `last_pat_pmt_ts` untouched and
writes only PES/raw packets. -/
theorem writePesBody_shape (m1 : M2tsMuxer) (pid : Nat) (data : List Nat)
    (dts pts : Option ℚ) (m2 : M2tsMuxer) (pes : List TsPacket)
    (h : writePesBody m1 pid data dts pts = some (m2, pes)) :
    m2.last_pat_pmt_ts = m1.last_pat_pmt_ts ∧
    ∀ p ∈ pes, p.payload.isPsi = false := by
  unfold writePesBody at h
  cases hst : assocGet m1.streams pid with
  | none => rw [hst] at h; simp at h
  | some st =>
      rw [hst] at h
      simp only [Option.some_bind] at h
      cases hsid : st.stream_id with
      | none => rw [hsid] at h; simp at h
      | some sid =>
          rw [hsid] at h
          simp only [Option.some_bind, Option.some.injEq, Prod.mk.injEq] at h
          obtain ⟨hm2, hpes⟩ := h
          constructor
          · rw [← hm2]
          · rw [← hpes]
            intro p hp
            rcases List.mem_cons.mp hp with h' | h'
            · rw [h']
              rfl
            · exact chunkRawAux_not_psi _ _ _ _ p h'

/-- **C6.** On a `write_pes` call with a `dts`, one PAT packet (listing
the single program `{program_num = 0x0001, pmt_pid = 0x1000}`) followed
by one PMT packet (carrying no PCR PID) is emitted before the PES
packets exactly when `last_pat_pmt_ts` is unset or
`dts − last_pat_pmt_ts < 0.1 s`, and `last_pat_pmt_ts` is then set to
`dts`; in particular the first call with a `dts` (no recorded timestamp)
emits them. -/
theorem write_pes_pat_pmt_emission (m : M2tsMuxer) (pid : Nat)
    (data : List Nat) (t : ℚ) (pts : Option ℚ) (m' : M2tsMuxer)
    (out : List TsPacket)
    (hrun : writePes m pid data (some t) pts = some (m', out)) :
    ((m.last_pat_pmt_ts = none ∨
        ∃ t0, m.last_pat_pmt_ts = some t0 ∧ t - t0 < 1 / 10) →
      ∃ (ccp ccm : Nat) (rest : List TsPacket),
        out = ⟨patPid, ccp, .pat 0x0001 [(PROGRAM_NUM, pmtPid)]⟩
            :: ⟨pmtPid, ccm, .pmt PROGRAM_NUM none
                 (m.streams.filterMap fun p => p.2.es_info)⟩ :: rest ∧
        (∀ p ∈ rest, p.payload.isPsi = false) ∧
        m'.last_pat_pmt_ts = some t) ∧
    (¬ (m.last_pat_pmt_ts = none ∨
        ∃ t0, m.last_pat_pmt_ts = some t0 ∧ t - t0 < 1 / 10) →
      m'.last_pat_pmt_ts = m.last_pat_pmt_ts ∧
      ∀ p ∈ out, p.payload.isPsi = false) := by
  by_cases hdue : patPmtDue m.last_pat_pmt_ts t = true
  · -- PAT/PMT due
    have hpre : writePesPrefix m (some t) =
        (emitPatPmt m).map fun p => ({ p.1 with last_pat_pmt_ts := some t }, p.2) := by
      show (if patPmtDue m.last_pat_pmt_ts t then
          (emitPatPmt m).map fun p => ({ p.1 with last_pat_pmt_ts := some t }, p.2)
        else some (m, [])) =
        (emitPatPmt m).map fun p => ({ p.1 with last_pat_pmt_ts := some t }, p.2)
      rw [if_pos hdue]
    unfold writePes at hrun
    rw [hpre] at hrun
    cases hep : emitPatPmt m with
    | none => rw [hep] at hrun; simp at hrun
    | some p =>
        obtain ⟨mp, pkts⟩ := p
        rw [hep] at hrun
        simp only [Option.map_some', Option.some_bind] at hrun
        cases hbody : writePesBody { mp with last_pat_pmt_ts := some t } pid data
            (some t) pts with
        | none => rw [hbody] at hrun; simp at hrun
        | some q =>
            obtain ⟨m2, pes⟩ := q
            rw [hbody] at hrun
            simp only [Option.map_some', Option.some.injEq, Prod.mk.injEq] at hrun
            obtain ⟨hm', hout⟩ := hrun
            obtain ⟨ccp, ccm, hpkts, -⟩ := emitPatPmt_shape m mp pkts hep
            obtain ⟨hlast2, hpes⟩ := writePesBody_shape _ pid data (some t) pts
              m2 pes hbody
            constructor
            · intro _
              refine ⟨ccp, ccm, pes, ?_, hpes, ?_⟩
              · rw [← hout, hpkts]
                rfl
              · rw [← hm', hlast2]
            · intro hnc
              exact absurd ((patPmtDue_iff _ t).mp hdue) hnc
  · -- not due
    have hpre : writePesPrefix m (some t) = some (m, []) := by
      show (if patPmtDue m.last_pat_pmt_ts t then
          (emitPatPmt m).map fun p => ({ p.1 with last_pat_pmt_ts := some t }, p.2)
        else some (m, [])) = some (m, [])
      rw [if_neg hdue]
    unfold writePes at hrun
    rw [hpre] at hrun
    simp only [Option.some_bind] at hrun
    cases hbody : writePesBody m pid data (some t) pts with
    | none => rw [hbody] at hrun; simp at hrun
    | some q =>
        obtain ⟨m2, pes⟩ := q
        rw [hbody] at hrun
        simp only [Option.map_some', Option.some.injEq, Prod.mk.injEq] at hrun
        obtain ⟨hm', hout⟩ := hrun
        obtain ⟨hlast2, hpes⟩ := writePesBody_shape m pid data (some t) pts
          m2 pes hbody
        constructor
        · intro hc
          exact absurd ((patPmtDue_iff _ t).mpr hc) hdue
        · intro _
          refine ⟨?_, ?_⟩
          · rw [← hm', hlast2]
          · rw [← hout]
            simpa using hpes

/-- A concrete muxer for the C6 witness: PAT and PMT streams plus one
HEVC elementary stream on PID `0x1011` (stream id `0xE0`, stream type
`0x24` = H.265), no recorded PAT/PMT timestamp. -/
def muxerW : M2tsMuxer :=
  ⟨[(0x0000, ⟨0, none, none⟩), (0x1000, ⟨0, none, none⟩),
    (0x1011, ⟨0, some 0xE0, some (0x1011, 0x24)⟩)], none⟩

/-- Witness for C6: the first `write_pes` call with a `dts` on `muxerW`
emits PAT then PMT before the PES packet and records the timestamp. -/
theorem write_pes_pat_pmt_emission_witness :
    writePes muxerW 0x1011 [1, 2, 3] (some 0) none =
      some (⟨[(0x0000, ⟨1, none, none⟩), (0x1000, ⟨1, none, none⟩),
              (0x1011, ⟨1, some 0xE0, some (0x1011, 0x24)⟩)], some 0⟩,
        [⟨0x0000, 1, .pat 0x0001 [(0x0001, 0x1000)]⟩,
         ⟨0x1000, 1, .pmt 0x0001 none [(0x1011, 0x24)]⟩,
         ⟨0x1011, 1, .pes 0xE0 (some (scale90k 0)) none [1, 2, 3]⟩]) ∧
    (muxerW.last_pat_pmt_ts = none ∨
      ∃ t0, muxerW.last_pat_pmt_ts = some t0 ∧ (0 : ℚ) - t0 < 1 / 10) ∧
    (∃ (ccp ccm : Nat) (rest : List TsPacket),
      [⟨0x0000, 1, .pat 0x0001 [(0x0001, 0x1000)]⟩,
       ⟨0x1000, 1, .pmt 0x0001 none [(0x1011, 0x24)]⟩,
       (⟨0x1011, 1, .pes 0xE0 (some (scale90k 0)) none [1, 2, 3]⟩ : TsPacket)] =
          ⟨patPid, ccp, .pat 0x0001 [(PROGRAM_NUM, pmtPid)]⟩
            :: ⟨pmtPid, ccm, .pmt PROGRAM_NUM none
                 (muxerW.streams.filterMap fun p => p.2.es_info)⟩ :: rest ∧
      (∀ p ∈ rest, p.payload.isPsi = false) ∧
      (⟨[(0x0000, ⟨1, none, none⟩), (0x1000, ⟨1, none, none⟩),
         (0x1011, ⟨1, some 0xE0, some (0x1011, 0x24)⟩)], some 0⟩ :
          M2tsMuxer).last_pat_pmt_ts = some 0) := by
  have hrun : writePes muxerW 0x1011 [1, 2, 3] (some 0) none =
      some (⟨[(0x0000, ⟨1, none, none⟩), (0x1000, ⟨1, none, none⟩),
              (0x1011, ⟨1, some 0xE0, some (0x1011, 0x24)⟩)], some 0⟩,
        [⟨0x0000, 1, .pat 0x0001 [(0x0001, 0x1000)]⟩,
         ⟨0x1000, 1, .pmt 0x0001 none [(0x1011, 0x24)]⟩,
         ⟨0x1011, 1, .pes 0xE0 (some (scale90k 0)) none [1, 2, 3]⟩]) := by
    rfl
  exact ⟨hrun, Or.inl rfl,
    (write_pes_pat_pmt_emission muxerW 0x1011 [1, 2, 3] 0 none _ _ hrun).1
      (Or.inl rfl)⟩

end Chibitv
